import Mathlib

/-!
Shallow embedding of `tensorflow_datasets/core/utils/version.py`: a semantic
version value type `Version` (MAJOR.MINOR.PATCH) with parsing, ordering,
string rendering, wildcard matching and per-version feature flags.

Strings are modelled as `List Char`; Python regex digit classes are modelled
as ASCII decimal digits. Python exceptions are modelled by the `PyError`
error type of `Except`-valued operations.
-/

namespace TfdsVersion

/-- A parsed version component: an integer, or the wildcard sentinel `"*"`
(only produced when the wildcard grammar is enabled). Models the elements of
the tuple returned by `_str_to_version`. -/
inductive VComp where
  | num (n : Nat)
  | wildcard
deriving DecidableEq, Repr

/-- Python exceptions raised by the code: `ValueError` (invalid version
format, with its message), `KeyError` (missing feature), `AssertionError`
(comparison operand of a wrong type, with its message) and `TypeError`
(native error from comparing an int with a str, never reachable from
constructed versions). -/
inductive PyError where
  | valueError (msg : List Char)
  | keyError (f_repr : List Char)
  | assertionError (msg : List Char)
  | typeError
deriving DecidableEq, Repr

/-- The `Feature` enum of the source: its only member is `DUMMY = 1`. -/
inductive Feature where
  | DUMMY
deriving DecidableEq, Repr

/-- Decimal digit characters, modelling the regex class `\d` (ASCII). -/
def isDigitChar (c : Char) : Bool :=
  48 ≤ c.toNat && c.toNat ≤ 57

/-- Value of a nonempty ASCII digit string, modelling Python `int(v)`
(leading zeros permitted). -/
def digitsToNat (s : List Char) : Nat :=
  s.foldl (fun a c => 10 * a + (c.toNat - 48)) 0

/-- One component of the version template: `\d+`, or `\*` when
`allow_wildcard` is set. Returns the parsed component on a match. -/
def parseComp (allow_wildcard : Bool) (s : List Char) : Option VComp :=
  if !s.isEmpty && s.all isDigitChar then some (.num (digitsToNat s))
  else if allow_wildcard && s = ['*'] then some VComp.wildcard
  else none

/-- Python `$` matches at the end of the string or just before a single
newline at the end of the string; equivalently, the anchored regexes of this
module match `s` exactly when their unanchored core matches the whole of
`stripTrailingNL s`. -/
def stripTrailingNL (s : List Char) : List Char :=
  if s.getLast? = some '\n' then s.dropLast else s

/-- Matching of the anchored regex `^comp\.comp\.comp$` against a string,
modelling `reg.match(version_str)` for `_VERSION_WILDCARD_REG` /
`_VERSION_RESOLVED_REG`: the (newline-adjusted) string must consist of
exactly three dot-separated components, each matching the component
pattern. -/
def regexMatchVersion (allow_wildcard : Bool) (s : List Char) :
    Option (VComp × VComp × VComp) :=
  match (stripTrailingNL s).splitOn '.' with
  | [a, b, c] =>
    match parseComp allow_wildcard a, parseComp allow_wildcard b,
        parseComp allow_wildcard c with
    | some x, some y, some z => some (x, y, z)
    | _, _, _ => none
  | _ => none

/-- The `ValueError` message built by `_str_to_version` on a failed match. -/
def invalidVersionMsg (s : List Char) (allow_wildcard : Bool) : List Char :=
  "Invalid version \x27".data ++ s ++ "\x27. Format should be x.y.z".data ++
    (if allow_wildcard then " with \x7bx,y,z\x7d being digits or wildcard.".data
     else " with \x7bx,y,z\x7d being digits.".data)

/-- Embeds `_str_to_version`: returns the `(major, minor, patch)` tuple
extracted from the string, or raises `ValueError` when the selected regex
does not match. -/
def _str_to_version (version_str : List Char) (allow_wildcard : Bool) :
    Except PyError (VComp × VComp × VComp) :=
  match regexMatchVersion allow_wildcard version_str with
  | some t => .ok t
  | none => .error (.valueError (invalidVersionMsg version_str allow_wildcard))

/-- The class attribute `Version._DEFAULT_FEATURES = {Feature.DUMMY: False}`,
modelled as an association list standing for a Python dict. -/
def DEFAULT_FEATURES : List (Feature × Bool) :=
  [(Feature.DUMMY, false)]

/-- Python `d[k] = v` on a dict modelled as an association list: replace the
value at an existing key in place, else append the new binding. -/
def dictSet (d : List (Feature × Bool)) (k : Feature) (v : Bool) :
    List (Feature × Bool) :=
  if d.any (fun p => p.1 = k) then
    d.map (fun p => if p.1 = k then (k, v) else p)
  else d ++ [(k, v)]

/-- Python `d.update(fs)`: set each binding of `fs` in order. -/
def dictUpdate (d fs : List (Feature × Bool)) : List (Feature × Bool) :=
  fs.foldl (fun d p => dictSet d p.1 p.2) d

/-- The feature map built by `Version.__init__`: a copy of
`_DEFAULT_FEATURES`, updated with the `features` argument when that argument
is truthy (`None` and the empty dict are falsy). -/
def initFeatures (features : Option (List (Feature × Bool))) :
    List (Feature × Bool) :=
  match features with
  | none => DEFAULT_FEATURES
  | some fs => if fs.isEmpty then DEFAULT_FEATURES else dictUpdate DEFAULT_FEATURES fs

/-- The `Version` object: the three attributes assigned by `__init__` from
`_str_to_version` (ints in practice, components in general, exactly as the
tuple unpacking stores them) and the private `_features` dict. -/
structure Version where
  major : VComp
  minor : VComp
  patch : VComp
  _features : List (Feature × Bool)
deriving DecidableEq, Repr

/-- Embeds `Version.__init__` (as a fallible constructor function):
`self._features` is seeded from the defaults and updated from `features`,
then `self.major, self.minor, self.patch = _str_to_version(version_str)`.
A `ValueError` from parsing propagates and no object is produced. -/
def Version.make (version_str : List Char)
    (features : Option (List (Feature × Bool)) := none) : Except PyError Version :=
  match _str_to_version version_str false with
  | .error e => .error e
  | .ok (a, b, c) => .ok { major := a, minor := b, patch := c, _features := features |> initFeatures }

/-- The class attribute `Version.LATEST = "latest"`. -/
def Version.LATEST : List Char := "latest".data

/-- Embeds `Version.implements`: `self._features[feature]`, a dict lookup
that raises `KeyError` when the feature has no entry. -/
def Version.implements (self : Version) (feature : Feature) : Except PyError Bool :=
  match self._features.lookup feature with
  | some b => .ok b
  | none => .error (.keyError "Feature.DUMMY".data)

/-- Python `str(x)` for a stored component: decimal rendering of an int
(no sign, no leading zeros), or the one-character string `"*"`. -/
def VComp.str : VComp → List Char
  | .num n => (List.map Nat.digitChar (Nat.digits 10 n)).reverse ++
      (if n = 0 then ['0'] else [])
  | .wildcard => ['*']

/-- Embeds `Version.__str__`: `"{}.{}.{}".format(major, minor, patch)`. -/
def Version.str (self : Version) : List Char :=
  self.major.str ++ '.' :: self.minor.str ++ '.' :: self.patch.str

/-- Embeds `Version.tuple`: `(self.major, self.minor, self.patch)`. -/
def Version.tuple (self : Version) : VComp × VComp × VComp :=
  (self.major, self.minor, self.patch)

/-- A comparison operand: a `Version`, a string, or any other Python value
(carried as the `repr` of the value and of its type, which is all the code
ever looks at). -/
inductive Operand where
  | ver (v : Version)
  | str (s : List Char)
  | other (val_repr : List Char) (type_repr : List Char)

/-- The `AssertionError` message of `_validate_operand`:
`"{} (type {}) cannot be compared to version."`. -/
def cannotCompareMsg (val_repr type_repr : List Char) : List Char :=
  val_repr ++ " (type ".data ++ type_repr ++ ") cannot be compared to version.".data

/-- Embeds `Version._validate_operand`: strings are parsed into a transient
`Version` (wildcards disallowed, default features), `Version` operands pass
through, anything else raises `AssertionError`. -/
def Version._validate_operand (other : Operand) : Except PyError Version :=
  match other with
  | .str s => Version.make s none
  | .ver v => .ok v
  | .other val_repr type_repr => .error (.assertionError (cannotCompareMsg val_repr type_repr))

/-- Python `a < b` on two components inside a tuple comparison: int vs int
compares numerically, str vs str (only `"*"` occurs) compares
lexicographically, int vs str raises `TypeError`. -/
def VComp.pyLt : VComp → VComp → Except PyError Bool
  | .num a, .num b => .ok (decide (a < b))
  | .wildcard, .wildcard => .ok false
  | _, _ => .error .typeError

/-- Python `<` on 3-tuples: lexicographic, locating the first pair of
components that are not `==` and ordering that pair (which may raise
`TypeError` on mixed types); equal tuples are not `<`. -/
def tuplePyLt (a b : VComp × VComp × VComp) : Except PyError Bool :=
  if a.1 ≠ b.1 then a.1.pyLt b.1
  else if a.2.1 ≠ b.2.1 then a.2.1.pyLt b.2.1
  else if a.2.2 ≠ b.2.2 then a.2.2.pyLt b.2.2
  else .ok false

/-- Embeds `Version.__eq__`:
`self.tuple() == self._validate_operand(other).tuple()` (tuple equality in
Python is componentwise `==`, which across int/str is `False`, as is
`VComp` equality). -/
def Version.eq (self : Version) (other : Operand) : Except PyError Bool := do
  let o ← Version._validate_operand other
  pure (decide (self.tuple = o.tuple))

/-- Python `self != other`, the default `__ne__`: negation of `__eq__`. -/
def Version.ne (self : Version) (other : Operand) : Except PyError Bool := do
  let e ← self.eq other
  pure (!e)

/-- Embeds `Version.__lt__`:
`self.tuple() < self._validate_operand(other).tuple()`. -/
def Version.lt (self : Version) (other : Operand) : Except PyError Bool := do
  let o ← Version._validate_operand other
  tuplePyLt self.tuple o.tuple

/-- `__gt__` as filled in by `functools.total_ordering` from `__lt__`:
`op_result = self.__lt__(other); return not op_result and self != other`. -/
def Version.gt (self : Version) (other : Operand) : Except PyError Bool := do
  let l ← self.lt other
  if l then pure false else self.ne other

/-- `__le__` as filled in by `functools.total_ordering` from `__lt__`:
`op_result = self.__lt__(other); return op_result or self == other`. -/
def Version.le (self : Version) (other : Operand) : Except PyError Bool := do
  let l ← self.lt other
  if l then pure true else self.eq other

/-- `__ge__` as filled in by `functools.total_ordering` from `__lt__`:
`return not self.__lt__(other)`. -/
def Version.ge (self : Version) (other : Operand) : Except PyError Bool := do
  let l ← self.lt other
  pure (!l)

/-- Embeds `Version.match`: parse the argument with the wildcard grammar and
test `major in [self.major, "*"] and minor in [self.minor, "*"] and patch in
[self.patch, "*"]` (`in` on a two-element list is `==` against either
element). -/
def Version.matches (self : Version) (other_version : List Char) : Except PyError Bool := do
  let (major, minor, patch) ← _str_to_version other_version true
  pure ((major = self.major || major = VComp.wildcard) &&
        (minor = self.minor || minor = VComp.wildcard) &&
        (patch = self.patch || patch = VComp.wildcard))

/-- Decidable equality of `Except` results, for evaluating concrete runs. -/
instance {ε α : Type _} [DecidableEq ε] [DecidableEq α] : DecidableEq (Except ε α) :=
  fun a b =>
    match a, b with
    | .ok x, .ok y =>
      if h : x = y then .isTrue (by rw [h]) else .isFalse (by simp [h])
    | .error x, .error y =>
      if h : x = y then .isTrue (by rw [h]) else .isFalse (by simp [h])
    | .ok _, .error _ => .isFalse (by simp)
    | .error _, .ok _ => .isFalse (by simp)

/-- Declarative form of the component pattern `\d+` (or `\d+|\*` when
wildcards are allowed): a nonempty all-digit string, or the single
character `*`. -/
def compMatches (allow_wildcard : Bool) (l : List Char) : Prop :=
  (l ≠ [] ∧ ∀ c ∈ l, isDigitChar c) ∨ (allow_wildcard = true ∧ l = ['*'])

/-- Declarative form of the version grammar with every character consumed
and no `$` newline allowance: three dot-separated components. This is the
grammar `^comp\.comp\.comp$` "matched exactly" in the sense of the spec
(no partial match, no trailing or leading characters). -/
def coreMatches (allow_wildcard : Bool) (s : List Char) : Prop :=
  ∃ a b c : List Char, s = a ++ '.' :: b ++ '.' :: c ∧
    compMatches allow_wildcard a ∧ compMatches allow_wildcard b ∧
    compMatches allow_wildcard c

/-- Executable mirror of `coreMatches`. -/
def coreMatchesB (allow_wildcard : Bool) (s : List Char) : Bool :=
  match s.splitOn '.' with
  | [a, b, c] =>
    ((parseComp allow_wildcard a).isSome && (parseComp allow_wildcard b).isSome)
      && (parseComp allow_wildcard c).isSome
  | _ => false

/-- The set of strings actually accepted by the anchored Python regex: the
exact grammar, or the exact grammar followed by one final newline (which
`$` tolerates). -/
def pyRegexAccepts (allow_wildcard : Bool) (s : List Char) : Prop :=
  coreMatches allow_wildcard s ∨
    ∃ core, s = core ++ ['\n'] ∧ coreMatches allow_wildcard core

/-- The integer of a component known to be numeric (`0` is never returned
for the wildcard in any theorem: constructed versions store numerals
only). -/
def VComp.numD : VComp → Nat
  | .num n => n
  | .wildcard => 0

/-- The `(major, minor, patch)` integers of a (resolved) version. -/
def Version.natTuple (v : Version) : Nat × Nat × Nat :=
  (v.major.numD, v.minor.numD, v.patch.numD)

/-- Lexicographic (standard tuple) strict order on integer triples, as the
spec words it: compare major first; on tie compare minor; on tie compare
patch. -/
def lexTriple (a b : Nat × Nat × Nat) : Prop :=
  a.1 < b.1 ∨ (a.1 = b.1 ∧ (a.2.1 < b.2.1 ∨ (a.2.1 = b.2.1 ∧ a.2.2 < b.2.2)))

end TfdsVersion

namespace TfdsVersion

/-- A successful component parse is exactly a component-grammar match. -/
lemma parseComp_isSome_iff {allow : Bool} {l : List Char} :
    (parseComp allow l).isSome ↔ compMatches allow l := by
  unfold parseComp compMatches
  cases h1 : (!l.isEmpty && l.all isDigitChar) with
  | true =>
    have h1' : l ≠ [] ∧ ∀ c ∈ l, isDigitChar c := by
      simpa [List.all_eq_true] using h1
    simp only [eq_self_iff_true, if_true, Option.isSome_some, true_iff]
    exact Or.inl h1'
  | false =>
    cases h2 : (allow && decide (l = ['*'])) with
    | true =>
      have h2' : allow = true ∧ l = ['*'] := by simpa using h2
      simp [h2']
    | false =>
      simp only [Bool.false_eq_true, if_false, Option.isSome_none, false_iff]
      rintro (⟨hne, hdig⟩ | ⟨hall, hstar⟩)
      · have : (!l.isEmpty && l.all isDigitChar) = true := by
          simp only [Bool.and_eq_true, Bool.not_eq_true', List.isEmpty_eq_false,
            List.all_eq_true]
          exact ⟨hne, hdig⟩
        rw [h1] at this
        cases this
      · have : (allow && decide (l = ['*'])) = true := by simp [hall, hstar]
        rw [h2] at this
        cases this

/-- With wildcards disabled, a component never parses to the sentinel. -/
lemma parseComp_false_num {l : List Char} {x : VComp}
    (h : parseComp false l = some x) : ∃ n, x = VComp.num n := by
  unfold parseComp at h
  split at h
  · exact ⟨_, (Option.some.inj h).symm⟩
  · simp at h

/-- A matching component contains no dot. -/
lemma compMatches_not_dot {allow : Bool} {l : List Char}
    (h : compMatches allow l) : '.' ∉ l := by
  rcases h with ⟨_, hdig⟩ | ⟨_, hl⟩
  · intro hmem
    have := hdig _ hmem
    simp [isDigitChar] at this
  · subst hl
    simp

/-- A matching component is nonempty and does not end in a newline. -/
lemma compMatches_getLast_ne_nl {allow : Bool} {l : List Char}
    (h : compMatches allow l) : ∃ ch, l.getLast? = some ch ∧ ch ≠ '\n' := by
  have hne : l ≠ [] := by
    rcases h with ⟨hne, _⟩ | ⟨_, hl⟩
    · exact hne
    · subst hl; simp
  obtain ⟨ch, hch⟩ := Option.isSome_iff_exists.mp (List.getLast?_isSome.mpr hne)
  refine ⟨ch, hch, ?_⟩
  have hmem := List.mem_of_getLast?_eq_some hch
  rcases h with ⟨_, hdig⟩ | ⟨_, hl⟩
  · have := hdig _ hmem
    intro hc
    subst hc
    simp [isDigitChar] at this
  · subst hl
    simp only [List.mem_singleton] at hmem
    subst hmem
    decide

/-- Flattening three components around two dots. -/
lemma intercalate_three (a b c : List Char) :
    List.intercalate ['.'] [a, b, c] = a ++ '.' :: b ++ '.' :: c := by
  simp [List.intercalate]

/-- Splitting on the dot recovers the three dot-free components. -/
lemma splitOn_three {a b c : List Char}
    (ha : '.' ∉ a) (hb : '.' ∉ b) (hc : '.' ∉ c) :
    (a ++ '.' :: b ++ '.' :: c).splitOn '.' = [a, b, c] := by
  have h := @List.splitOn_intercalate Char [a, b, c] _ '.'
    (by
      intro l hl
      simp only [List.mem_cons, List.not_mem_nil, or_false] at hl
      rcases hl with rfl | rfl | rfl <;> assumption)
    (by simp)
  rwa [intercalate_three] at h

/-- The last character of a three-component string is the last character of
its final component. -/
lemma getLast_three (a b : List Char) {c : List Char} (hc : c ≠ []) :
    (a ++ '.' :: b ++ '.' :: c).getLast? = c.getLast? := by
  obtain ⟨ch, hch⟩ := Option.isSome_iff_exists.mp (List.getLast?_isSome.mpr hc)
  rw [show (a ++ '.' :: b ++ '.' :: c) = (a ++ '.' :: b ++ ['.']) ++ c by simp]
  rw [List.getLast?_append, hch, Option.or_some]

/-- Elimination form of a successful regex match: the newline-adjusted
string splits into three components, each parsing to the returned tuple's
entry. -/
lemma regexMatchVersion_some_elim {allow : Bool} {s : List Char}
    {x y z : VComp} (h : regexMatchVersion allow s = some (x, y, z)) :
    ∃ a b c, (stripTrailingNL s).splitOn '.' = [a, b, c] ∧
      parseComp allow a = some x ∧ parseComp allow b = some y ∧
      parseComp allow c = some z := by
  unfold regexMatchVersion at h
  split at h
  · split at h
    · simp only [Option.some.injEq, Prod.mk.injEq] at h
      obtain ⟨rfl, rfl, rfl⟩ := h
      exact ⟨_, _, _, by assumption, by assumption, by assumption, by assumption⟩
    · exact absurd h (by simp)
  · exact absurd h (by simp)

/-- The executable grammar check agrees with the declarative grammar. -/
lemma coreMatchesB_iff {allow : Bool} {s : List Char} :
    coreMatchesB allow s = true ↔ coreMatches allow s := by
  constructor
  · intro h
    unfold coreMatchesB at h
    split at h
    · rename_i a b c heq
      simp only [Bool.and_eq_true] at h
      obtain ⟨⟨ha, hb⟩, hc⟩ := h
      have hs : s = a ++ '.' :: b ++ '.' :: c := by
        have h2 := @List.intercalate_splitOn Char s '.' _
        rw [heq, intercalate_three] at h2
        exact h2.symm
      exact ⟨a, b, c, hs, parseComp_isSome_iff.mp ha, parseComp_isSome_iff.mp hb,
        parseComp_isSome_iff.mp hc⟩
    · cases h
  · rintro ⟨a, b, c, rfl, ha, hb, hc⟩
    unfold coreMatchesB
    rw [splitOn_three (compMatches_not_dot ha) (compMatches_not_dot hb)
      (compMatches_not_dot hc)]
    simp [parseComp_isSome_iff.mpr ha, parseComp_isSome_iff.mpr hb,
      parseComp_isSome_iff.mpr hc]

/-- The regex matcher succeeds exactly when the executable grammar check
accepts the newline-adjusted string. -/
lemma regexMatchVersion_isSome_eq {allow : Bool} {s : List Char} :
    (regexMatchVersion allow s).isSome = coreMatchesB allow (stripTrailingNL s) := by
  unfold regexMatchVersion coreMatchesB
  generalize (stripTrailingNL s).splitOn '.' = L
  rcases L with _ | ⟨a, _ | ⟨b, _ | ⟨c, _ | d⟩⟩⟩
  · rfl
  · rfl
  · rfl
  · cases hx : parseComp allow a <;> cases hy : parseComp allow b <;>
      cases hz : parseComp allow c <;> simp [hx, hy, hz]
  · rfl

/-- A string of the exact grammar never ends in a newline. -/
lemma coreMatches_getLast_ne_nl {allow : Bool} {s : List Char}
    (h : coreMatches allow s) : s.getLast? ≠ some '\n' := by
  obtain ⟨a, b, c, rfl, _, _, hc⟩ := h
  obtain ⟨ch, hch, hne⟩ := compMatches_getLast_ne_nl hc
  have hcne : c ≠ [] := by
    rintro rfl
    simp at hch
  rw [getLast_three a b hcne, hch]
  simpa using hne

/-- The Python regex accepts a string exactly when the declarative grammar
matches its newline-adjusted form. -/
lemma pyRegexAccepts_iff {allow : Bool} {s : List Char} :
    pyRegexAccepts allow s ↔ coreMatches allow (stripTrailingNL s) := by
  constructor
  · rintro (h | ⟨core, rfl, h⟩)
    · have hstr : stripTrailingNL s = s := by
        unfold stripTrailingNL
        rw [if_neg (coreMatches_getLast_ne_nl h)]
      rwa [hstr]
    · unfold stripTrailingNL
      rw [if_pos (List.getLast?_concat _), List.dropLast_concat]
      exact h
  · intro h
    unfold stripTrailingNL at h
    by_cases hnl : s.getLast? = some '\n'
    · rw [if_pos hnl] at h
      obtain ⟨ys, hys⟩ := List.getLast?_eq_some_iff.mp hnl
      refine Or.inr ⟨ys, hys, ?_⟩
      rwa [hys, List.dropLast_concat] at h
    · rw [if_neg hnl] at h
      exact Or.inl h

/-- The regex matcher succeeds exactly on the strings the Python regex
accepts. -/
lemma regexMatchVersion_isSome_iff {allow : Bool} {s : List Char} :
    (regexMatchVersion allow s).isSome = true ↔ pyRegexAccepts allow s := by
  rw [regexMatchVersion_isSome_eq, coreMatchesB_iff]
  exact pyRegexAccepts_iff.symm

/-- The characters `Nat.digitChar` produces below base ten. -/
lemma digitChar_toNat : ∀ d < 10, (Nat.digitChar d).toNat = 48 + d := by decide

/-- Digit characters below base ten satisfy the digit test. -/
lemma digitChar_isDigit : ∀ d < 10, isDigitChar (Nat.digitChar d) = true := by decide

/-- Unfolding of the rendering of a numeric component. -/
lemma VComp.str_num (n : Nat) :
    VComp.str (VComp.num n) =
      (List.map Nat.digitChar (Nat.digits 10 n)).reverse ++
        (if n = 0 then ['0'] else []) := rfl

/-- The decimal rendering of an integer is a nonempty all-digit string. -/
lemma numStr_digits (n : Nat) :
    VComp.str (VComp.num n) ≠ [] ∧ ∀ c ∈ VComp.str (VComp.num n), isDigitChar c := by
  rw [VComp.str_num]
  by_cases h0 : n = 0
  · subst h0
    simp only [Nat.digits_zero, List.map_nil, List.reverse_nil, List.nil_append,
      if_pos rfl]
    exact ⟨by decide, by decide⟩
  · rw [if_neg h0, List.append_nil]
    constructor
    · simp [Nat.digits_ne_nil_iff_ne_zero.mpr h0]
    · intro c hc
      simp only [List.mem_reverse, List.mem_map] at hc
      obtain ⟨d, hd, rfl⟩ := hc
      exact digitChar_isDigit d (Nat.digits_lt_base (by norm_num) hd)

/-- Folding the digit-value accumulator over a digit list recovers
`Nat.ofDigits`. -/
lemma foldr_digitChar_ofDigits :
    ∀ L : List Nat, (∀ d ∈ L, d < 10) →
      L.foldr (fun d a => 10 * a + ((Nat.digitChar d).toNat - 48)) 0 =
        Nat.ofDigits 10 L := by
  intro L hL
  induction L with
  | nil => rfl
  | cons d t ih =>
    simp only [List.foldr_cons, Nat.ofDigits_cons,
      ih (fun x hx => hL x (List.mem_cons_of_mem d hx))]
    rw [digitChar_toNat d (hL d (List.mem_cons_self d t))]
    omega

/-- Parsing back the decimal rendering of `n` yields `n`: the rendering has
no leading zeros and `int` round-trips it. -/
lemma digitsToNat_numStr (n : Nat) : digitsToNat (VComp.str (VComp.num n)) = n := by
  rw [VComp.str_num]
  by_cases h0 : n = 0
  · subst h0
    simp only [Nat.digits_zero, List.map_nil, List.reverse_nil, List.nil_append,
      if_pos rfl]
    decide
  · rw [if_neg h0, List.append_nil]
    unfold digitsToNat
    rw [List.foldl_reverse, List.foldr_map]
    have h := foldr_digitChar_ofDigits (Nat.digits 10 n)
      (fun d hd => Nat.digits_lt_base (by norm_num) hd)
    rw [show (fun (x : Nat) (y : Nat) => 10 * y + ((Nat.digitChar x).toNat - 48)) =
      (fun d a => 10 * a + ((Nat.digitChar d).toNat - 48)) from rfl] at *
    rw [h]
    exact_mod_cast Nat.ofDigits_digits 10 n

/-- A decimal rendering parses as a numeric component (under either
grammar). -/
lemma parseComp_numStr (allow : Bool) (n : Nat) :
    parseComp allow (VComp.str (VComp.num n)) = some (VComp.num n) := by
  obtain ⟨hne, hdig⟩ := numStr_digits n
  unfold parseComp
  rw [if_pos]
  · rw [digitsToNat_numStr]
  · simp only [Bool.and_eq_true, Bool.not_eq_true', List.isEmpty_eq_false,
      List.all_eq_true]
    exact ⟨hne, hdig⟩

/-- Rendering of a one-digit number. -/
lemma numStr_single_digit {d : Nat} (h0 : 0 < d) (h10 : d < 10) :
    VComp.str (VComp.num d) = [Nat.digitChar d] := by
  rw [VComp.str_num, Nat.digits_def' (by norm_num) h0,
    Nat.mod_eq_of_lt h10, Nat.div_eq_of_lt h10]
  simp [Nat.pos_iff_ne_zero.mp h0]

/-- The decimal rendering of a nonzero integer has no leading zero. -/
lemma numStr_head_ne_zero {n : Nat} (hn : n ≠ 0) :
    ∀ c, (VComp.str (VComp.num n)).head? = some c → c ≠ '0' := by
  rw [VComp.str_num, if_neg hn, List.append_nil]
  intro c hc hc0
  subst hc0
  rw [List.head?_reverse, List.getLast?_map] at hc
  have hne : Nat.digits 10 n ≠ [] := Nat.digits_ne_nil_iff_ne_zero.mpr hn
  rw [List.getLast?_eq_getLast _ hne] at hc
  rw [Option.map_some'] at hc
  have hc' := Option.some.inj hc
  have hlt : (Nat.digits 10 n).getLast hne < 10 :=
    Nat.digits_lt_base (by norm_num) (List.getLast_mem hne)
  have hnz : (Nat.digits 10 n).getLast hne ≠ 0 :=
    Nat.getLast_digit_ne_zero 10 hn
  have hforall : ∀ d, d < 10 → d ≠ 0 → Nat.digitChar d ≠ '0' := by decide
  exact hforall _ hlt hnz hc'

/-- Introduction form of a successful regex match. -/
lemma regexMatchVersion_some_intro {allow : Bool} {s a b c : List Char}
    {x y z : VComp} (hs : (stripTrailingNL s).splitOn '.' = [a, b, c])
    (hx : parseComp allow a = some x) (hy : parseComp allow b = some y)
    (hz : parseComp allow c = some z) :
    regexMatchVersion allow s = some (x, y, z) := by
  unfold regexMatchVersion
  rw [hs]
  simp [hx, hy, hz]

end TfdsVersion

namespace TfdsVersion

/-- A successfully constructed version is three parsed numeric components
together with the initialised feature map. -/
lemma make_ok_shape {s : List Char} {fso : Option (List (Feature × Bool))}
    {v : Version} (h : Version.make s fso = .ok v) :
    ∃ a b c : Nat, regexMatchVersion false s = some (.num a, .num b, .num c) ∧
      v = ⟨.num a, .num b, .num c, initFeatures fso⟩ := by
  unfold Version.make _str_to_version at h
  cases hr : regexMatchVersion false s with
  | none => rw [hr] at h; cases h
  | some t =>
    obtain ⟨x, y, z⟩ := t
    rw [hr] at h
    simp only [Except.ok.injEq] at h
    obtain ⟨a, b, c, -, hx, hy, hz⟩ := regexMatchVersion_some_elim hr
    obtain ⟨na, rfl⟩ := parseComp_false_num hx
    obtain ⟨nb, rfl⟩ := parseComp_false_num hy
    obtain ⟨nc, rfl⟩ := parseComp_false_num hz
    exact ⟨na, nb, nc, rfl, h.symm⟩

/-- Construction fails with the parser's `ValueError` when the regex does
not match. -/
lemma make_of_regex_none {s : List Char} {fso : Option (List (Feature × Bool))}
    (h : regexMatchVersion false s = none) :
    Version.make s fso = .error (.valueError (invalidVersionMsg s false)) := by
  unfold Version.make _str_to_version
  rw [h]

/-- Lookup distributes over append as a left-biased choice. -/
lemma lookup_append (l1 l2 : List (Feature × Bool)) (k : Feature) :
    (l1 ++ l2).lookup k = (l1.lookup k).or (l2.lookup k) := by
  induction l1 with
  | nil => simp
  | cons p t ih =>
    obtain ⟨k', v⟩ := p
    cases hk : (k == k') with
    | true => simp [List.lookup_cons, hk]
    | false => simp [List.lookup_cons, hk, ih]

/-- All features are equal: the enum has the single member `DUMMY`. -/
lemma feature_eq (f k : Feature) : f = k := by
  cases f; cases k; rfl

/-- Feature equality always tests true. -/
lemma beq_feature (f k : Feature) : (f == k) = true := by
  cases f; cases k; decide

/-- Setting a key makes it present with the set value. -/
lemma dictSet_lookup_self (d : List (Feature × Bool)) (k : Feature) (v : Bool) :
    (dictSet d k v).lookup k = some v := by
  unfold dictSet
  cases d with
  | nil => simp
  | cons p t =>
    rw [if_pos]
    · simp [feature_eq p.1 k, List.lookup_cons, beq_feature]
    · simp [feature_eq p.1 k]

/-- Master lemma for `d.update(fs)`: the last binding of a key in `fs` wins,
and keys absent from `fs` fall back to `d`. -/
lemma dictUpdate_lookup (fs d : List (Feature × Bool)) (f : Feature) :
    (dictUpdate d fs).lookup f = (fs.reverse.lookup f).or (d.lookup f) := by
  induction fs generalizing d with
  | nil => simp [dictUpdate]
  | cons p t ih =>
    obtain ⟨k, v⟩ := p
    show (dictUpdate (dictSet d k v) t).lookup f = _
    rw [ih]
    rw [List.reverse_cons, lookup_append, Option.or_assoc]
    congr 1
    have hf : f = k := feature_eq f k
    subst hf
    rw [dictSet_lookup_self]
    simp [List.lookup_cons, beq_feature]

end TfdsVersion

namespace TfdsVersion

/-- Python tuple `<` on all-integer triples: first unequal position
decides. -/
lemma tuplePyLt_num (a1 a2 a3 b1 b2 b3 : Nat) :
    tuplePyLt (VComp.num a1, VComp.num a2, VComp.num a3)
        (VComp.num b1, VComp.num b2, VComp.num b3) =
      .ok (if a1 ≠ b1 then decide (a1 < b1)
           else if a2 ≠ b2 then decide (a2 < b2)
           else if a3 ≠ b3 then decide (a3 < b3)
           else false) := by
  unfold tuplePyLt VComp.pyLt
  simp only [ne_eq, VComp.num.injEq]
  split_ifs <;> rfl

/-- The branch cascade of the tuple comparison computes the lexicographic
order of the spec. -/
lemma iteLex_iff (a1 a2 a3 b1 b2 b3 : Nat) :
    ((if a1 ≠ b1 then decide (a1 < b1)
      else if a2 ≠ b2 then decide (a2 < b2)
      else if a3 ≠ b3 then decide (a3 < b3)
      else false) = true) ↔
    lexTriple (a1, a2, a3) (b1, b2, b3) := by
  unfold lexTriple
  split_ifs with h1 h2 h3 <;> simp_all

/-- The lexicographic order on integer triples is trichotomous. -/
lemma lexTriple_trichotomy (a b : Nat × Nat × Nat) :
    (lexTriple a b ∧ a ≠ b ∧ ¬ lexTriple b a) ∨
    (a = b ∧ ¬ lexTriple a b ∧ ¬ lexTriple b a) ∨
    (lexTriple b a ∧ a ≠ b ∧ ¬ lexTriple a b) := by
  obtain ⟨a1, a2, a3⟩ := a
  obtain ⟨b1, b2, b3⟩ := b
  unfold lexTriple
  simp only [Prod.mk.injEq, ne_eq, not_and_or]
  by_cases h1 : a1 = b1 <;> by_cases h2 : a2 = b2 <;> by_cases h3 : a3 = b3 <;>
    subst_eqs <;> omega

/-- Comparison against a `Version` operand passes it through unchanged. -/
lemma eq_ver (v w : Version) :
    v.eq (.ver w) = .ok (decide (v.tuple = w.tuple)) := rfl

/-- `__lt__` against a `Version` operand is the tuple comparison. -/
lemma lt_ver (v w : Version) :
    v.lt (.ver w) = tuplePyLt v.tuple w.tuple := rfl

end TfdsVersion

namespace TfdsVersion

/-- Binding a success just applies the continuation. -/
lemma ok_bind {ε α β : Type _} (a : α) (f : α → Except ε β) :
    (Except.ok a : Except ε α) >>= f = f a := rfl

/-- Binding a failure propagates it. -/
lemma error_bind {ε α β : Type _} (e : ε) (f : α → Except ε β) :
    (Except.error e : Except ε α) >>= f = Except.error e := rfl

/-- `pure` is `Except.ok`. -/
lemma pure_eq_ok {ε α : Type _} (a : α) : (pure a : Except ε α) = Except.ok a := rfl

/-- Unfolding `__gt__` once the base comparisons are known. -/
lemma gt_of_lt_eq {v : Version} {o : Operand} {lB eB : Bool}
    (hl : v.lt o = .ok lB) (he : v.eq o = .ok eB) :
    v.gt o = .ok (if lB then false else !eB) := by
  unfold Version.gt Version.ne
  rw [hl, ok_bind]
  cases lB <;> simp [ok_bind, he, pure_eq_ok]

/-- Unfolding `__le__` once the base comparisons are known. -/
lemma le_of_lt_eq {v : Version} {o : Operand} {lB eB : Bool}
    (hl : v.lt o = .ok lB) (he : v.eq o = .ok eB) :
    v.le o = .ok (if lB then true else eB) := by
  unfold Version.le
  rw [hl, ok_bind]
  cases lB <;> simp [ok_bind, he, pure_eq_ok]

/-- Unfolding `__ge__` once the base comparison is known. -/
lemma ge_of_lt {v : Version} {o : Operand} {lB : Bool}
    (hl : v.lt o = .ok lB) :
    v.ge o = .ok (!lB) := by
  unfold Version.ge
  rw [hl, ok_bind, pure_eq_ok]

end TfdsVersion

namespace TfdsVersion

/-- A boolean is false when its truth is equivalent to a refuted
proposition. -/
lemma bool_eq_false_of_iff {b : Bool} {p : Prop}
    (hiff : b = true ↔ p) (h : ¬ p) : b = false := by
  cases hb : b with
  | false => rfl
  | true => exact absurd (hiff.mp hb) h

/-- C1: Version ordering is a total order defined lexicographically over the
triple (major, minor, patch): compare major first, on tie minor, on tie
patch; consequently for every pair of valid version strings, exactly one of
`Version(a) < Version(b)`, `Version(a) == Version(b)`,
`Version(a) > Version(b)` holds. -/
theorem ordering_lex_trichotomy (sa sb : List Char)
    (fa fb : Option (List (Feature × Bool))) (va vb : Version)
    (hA : Version.make sa fa = .ok va) (hB : Version.make sb fb = .ok vb) :
    ∃ l e g : Bool,
      va.lt (.ver vb) = .ok l ∧ va.eq (.ver vb) = .ok e ∧
      va.gt (.ver vb) = .ok g ∧
      (l = true ↔ lexTriple va.natTuple vb.natTuple) ∧
      (e = true ↔ va.natTuple = vb.natTuple) ∧
      (g = true ↔ lexTriple vb.natTuple va.natTuple) ∧
      l.toNat + e.toNat + g.toNat = 1 := by
  obtain ⟨a1, a2, a3, -, rfl⟩ := make_ok_shape hA
  obtain ⟨b1, b2, b3, -, rfl⟩ := make_ok_shape hB
  have hlt := (lt_ver ⟨VComp.num a1, VComp.num a2, VComp.num a3, initFeatures fa⟩
    ⟨VComp.num b1, VComp.num b2, VComp.num b3, initFeatures fb⟩).trans
    (tuplePyLt_num a1 a2 a3 b1 b2 b3)
  have heq2 : Version.eq ⟨VComp.num a1, VComp.num a2, VComp.num a3, initFeatures fa⟩
      (.ver ⟨VComp.num b1, VComp.num b2, VComp.num b3, initFeatures fb⟩) =
      .ok (decide ((a1, a2, a3) = (b1, b2, b3))) := by
    rw [eq_ver]
    exact congrArg Except.ok (decide_eq_decide.mpr
      (by simp [Version.tuple, Prod.ext_iff]))
  set lB := (if a1 ≠ b1 then decide (a1 < b1)
      else if a2 ≠ b2 then decide (a2 < b2)
      else if a3 ≠ b3 then decide (a3 < b3)
      else false) with hlBdef
  set eB := decide ((a1, a2, a3) = (b1, b2, b3)) with heBdef
  have hlex : lB = true ↔ lexTriple (a1, a2, a3) (b1, b2, b3) :=
    iteLex_iff a1 a2 a3 b1 b2 b3
  have heqiff : eB = true ↔ (a1, a2, a3) = (b1, b2, b3) := by
    simp [heBdef]
  refine ⟨lB, eB, if lB then false else !eB, hlt, heq2,
    gt_of_lt_eq hlt heq2, hlex, heqiff, ?_, ?_⟩
  · rcases lexTriple_trichotomy (a1, a2, a3) (b1, b2, b3) with
      ⟨hl, hne, hnl⟩ | ⟨hq, hn1, hn2⟩ | ⟨hl, hne, hnl⟩
    · exact iff_of_false (by simp [hlex.mpr hl]) hnl
    · exact iff_of_false
        (by simp [bool_eq_false_of_iff hlex hn1, heqiff.mpr hq]) hn2
    · exact iff_of_true
        (by simp [bool_eq_false_of_iff hlex hnl, bool_eq_false_of_iff heqiff hne])
        hl
  · rcases lexTriple_trichotomy (a1, a2, a3) (b1, b2, b3) with
      ⟨hl, hne, hnl⟩ | ⟨hq, hn1, hn2⟩ | ⟨hl, hne, hnl⟩
    · simp [hlex.mpr hl, bool_eq_false_of_iff heqiff hne]
    · simp [bool_eq_false_of_iff hlex hn1, heqiff.mpr hq]
    · simp [bool_eq_false_of_iff hlex hnl, bool_eq_false_of_iff heqiff hne]

end TfdsVersion

namespace TfdsVersion

/-- Any construction failure carries the parser's `ValueError` message. -/
lemma make_error_shape {s : List Char} {fso : Option (List (Feature × Bool))}
    {e : PyError} (h : Version.make s fso = .error e) :
    e = .valueError (invalidVersionMsg s false) := by
  unfold Version.make _str_to_version at h
  cases hr : regexMatchVersion false s with
  | none =>
    rw [hr] at h
    exact (Except.error.inj h).symm
  | some t =>
    obtain ⟨x, y, z⟩ := t
    rw [hr] at h
    cases h

/-- C2: for every triple of non-negative integers (M, N, P), constructing a
Version from the rendered string "M.N.P" (decimal, no leading zeros) and
rendering it back with str yields exactly "M.N.P". -/
theorem roundtrip_str (M N P : Nat) :
    Version.make (VComp.str (VComp.num M) ++ '.' :: VComp.str (VComp.num N) ++
        '.' :: VComp.str (VComp.num P)) none =
      .ok ⟨VComp.num M, VComp.num N, VComp.num P, DEFAULT_FEATURES⟩ ∧
    Version.str ⟨VComp.num M, VComp.num N, VComp.num P, DEFAULT_FEATURES⟩ =
      VComp.str (VComp.num M) ++ '.' :: VComp.str (VComp.num N) ++
        '.' :: VComp.str (VComp.num P) ∧
    (∀ n : Nat, n ≠ 0 →
      ∀ c, (VComp.str (VComp.num n)).head? = some c → c ≠ '0') := by
  have cM : compMatches false (VComp.str (VComp.num M)) := Or.inl (numStr_digits M)
  have cN : compMatches false (VComp.str (VComp.num N)) := Or.inl (numStr_digits N)
  have cP : compMatches false (VComp.str (VComp.num P)) := Or.inl (numStr_digits P)
  have hcore : coreMatches false (VComp.str (VComp.num M) ++ '.' ::
      VComp.str (VComp.num N) ++ '.' :: VComp.str (VComp.num P)) :=
    ⟨_, _, _, rfl, cM, cN, cP⟩
  have hstrip : stripTrailingNL (VComp.str (VComp.num M) ++ '.' ::
      VComp.str (VComp.num N) ++ '.' :: VComp.str (VComp.num P)) =
      VComp.str (VComp.num M) ++ '.' :: VComp.str (VComp.num N) ++
        '.' :: VComp.str (VComp.num P) := by
    unfold stripTrailingNL
    rw [if_neg (coreMatches_getLast_ne_nl hcore)]
  have hsplit : (stripTrailingNL (VComp.str (VComp.num M) ++ '.' ::
      VComp.str (VComp.num N) ++ '.' :: VComp.str (VComp.num P))).splitOn '.' =
      [VComp.str (VComp.num M), VComp.str (VComp.num N), VComp.str (VComp.num P)] := by
    rw [hstrip]
    exact splitOn_three (compMatches_not_dot cM) (compMatches_not_dot cN)
      (compMatches_not_dot cP)
  have hreg := regexMatchVersion_some_intro hsplit (parseComp_numStr false M)
    (parseComp_numStr false N) (parseComp_numStr false P)
  refine ⟨?_, rfl, fun n hn => numStr_head_ne_zero hn⟩
  unfold Version.make _str_to_version
  rw [hreg]
  rfl

end TfdsVersion

namespace TfdsVersion

/-- C1 witness: at Version("1.0.1") and Version("1.0.0"): `>` holds and
`<`, `==` do not. -/
theorem ordering_lex_trichotomy_witness :
    ∃ l e g : Bool,
      Version.lt ⟨VComp.num 1, VComp.num 0, VComp.num 1, DEFAULT_FEATURES⟩
        (.ver ⟨VComp.num 1, VComp.num 0, VComp.num 0, DEFAULT_FEATURES⟩) = .ok l ∧
      Version.eq ⟨VComp.num 1, VComp.num 0, VComp.num 1, DEFAULT_FEATURES⟩
        (.ver ⟨VComp.num 1, VComp.num 0, VComp.num 0, DEFAULT_FEATURES⟩) = .ok e ∧
      Version.gt ⟨VComp.num 1, VComp.num 0, VComp.num 1, DEFAULT_FEATURES⟩
        (.ver ⟨VComp.num 1, VComp.num 0, VComp.num 0, DEFAULT_FEATURES⟩) = .ok g ∧
      (l = true ↔ lexTriple (1, 0, 1) (1, 0, 0)) ∧
      (e = true ↔ ((1, 0, 1) : Nat × Nat × Nat) = (1, 0, 0)) ∧
      (g = true ↔ lexTriple (1, 0, 0) (1, 0, 1)) ∧
      l.toNat + e.toNat + g.toNat = 1 :=
  ordering_lex_trichotomy "1.0.1".data "1.0.0".data none none
    ⟨VComp.num 1, VComp.num 0, VComp.num 1, DEFAULT_FEATURES⟩
    ⟨VComp.num 1, VComp.num 0, VComp.num 0, DEFAULT_FEATURES⟩
    (by decide) (by decide)

/-- C3: for a constructed Version and a string accepted by the
wildcard-enabled grammar, `match` returns true iff each parsed component is
the wildcard sentinel or numerically equal to the corresponding component;
a single mismatch gives false. -/
theorem match_iff_components (sa : List Char)
    (fo : Option (List (Feature × Bool))) (va : Version) (s : List Char)
    (x y z : VComp) (hA : Version.make sa fo = .ok va)
    (hs : _str_to_version s true = .ok (x, y, z)) :
    ∃ b : Bool, va.matches s = .ok b ∧
      (b = true ↔
        ((x = VComp.wildcard ∨ ∃ n, x = VComp.num n ∧ va.major = VComp.num n) ∧
         (y = VComp.wildcard ∨ ∃ n, y = VComp.num n ∧ va.minor = VComp.num n) ∧
         (z = VComp.wildcard ∨ ∃ n, z = VComp.num n ∧ va.patch = VComp.num n))) := by
  obtain ⟨a1, a2, a3, -, rfl⟩ := make_ok_shape hA
  have hm : Version.matches
      ⟨VComp.num a1, VComp.num a2, VComp.num a3, initFeatures fo⟩ s =
      .ok ((x = VComp.num a1 || x = VComp.wildcard) &&
        (y = VComp.num a2 || y = VComp.wildcard) &&
        (z = VComp.num a3 || z = VComp.wildcard)) := by
    unfold Version.matches
    rw [hs, ok_bind]
    rfl
  refine ⟨_, hm, ?_⟩
  simp only [Bool.and_eq_true, Bool.or_eq_true, decide_eq_true_eq]
  rcases x with m1 | _ <;> rcases y with m2 | _ <;> rcases z with m3 | _ <;>
    simp [eq_comm, and_assoc]

end TfdsVersion

namespace TfdsVersion

/-- C3 witness: Version("1.2.3").match("1.2.*") behaves per the component
rule, and is in fact true. -/
theorem match_iff_components_witness :
    (∃ b : Bool,
      Version.matches ⟨VComp.num 1, VComp.num 2, VComp.num 3, DEFAULT_FEATURES⟩
          "1.2.*".data = .ok b ∧
      (b = true ↔
        ((VComp.num 1 = VComp.wildcard ∨ ∃ n, VComp.num 1 = VComp.num n ∧
            (⟨VComp.num 1, VComp.num 2, VComp.num 3, DEFAULT_FEATURES⟩ :
              Version).major = VComp.num n) ∧
         (VComp.num 2 = VComp.wildcard ∨ ∃ n, VComp.num 2 = VComp.num n ∧
            (⟨VComp.num 1, VComp.num 2, VComp.num 3, DEFAULT_FEATURES⟩ :
              Version).minor = VComp.num n) ∧
         (VComp.wildcard = VComp.wildcard ∨ ∃ n, VComp.wildcard = VComp.num n ∧
            (⟨VComp.num 1, VComp.num 2, VComp.num 3, DEFAULT_FEATURES⟩ :
              Version).patch = VComp.num n)))) ∧
    Version.matches ⟨VComp.num 1, VComp.num 2, VComp.num 3, DEFAULT_FEATURES⟩
        "1.2.*".data = .ok true ∧
    Version.matches ⟨VComp.num 1, VComp.num 2, VComp.num 3, DEFAULT_FEATURES⟩
        "1.3.*".data = .ok false ∧
    Version.matches ⟨VComp.num 1, VComp.num 2, VComp.num 3, DEFAULT_FEATURES⟩
        "*.*.*".data = .ok true ∧
    Version.matches ⟨VComp.num 1, VComp.num 2, VComp.num 3, DEFAULT_FEATURES⟩
        "1.2.3".data = .ok true :=
  ⟨match_iff_components "1.2.3".data none _ "1.2.*".data
      (VComp.num 1) (VComp.num 2) VComp.wildcard (by decide) (by decide),
    by decide, by decide, by decide, by decide⟩

/-- C4 counterexample: the code accepts "1.2.3\n", a string that does not
satisfy the grammar matched exactly (Python `$` tolerates one trailing
newline), so construction does not fail on every string outside the exact
grammar. -/
theorem construction_newline_counterexample :
    Version.make "1.2.3\n".data none =
      .ok ⟨VComp.num 1, VComp.num 2, VComp.num 3, DEFAULT_FEATURES⟩ ∧
    ¬ coreMatches false "1.2.3\n".data := by
  refine ⟨by decide, fun h => coreMatches_getLast_ne_nl h (by decide)⟩

/-- C4 (amended): construction fails with the parser's `ValueError` for
every string the anchored regex does not accept — the exact grammar
optionally followed by one trailing newline — and the error message states
the offending string and the expected x.y.z pattern. -/
theorem construction_rejects_invalid (s : List Char)
    (fso : Option (List (Feature × Bool))) (h : ¬ pyRegexAccepts false s) :
    Version.make s fso = .error (.valueError (invalidVersionMsg s false)) ∧
    invalidVersionMsg s false =
      "Invalid version \x27".data ++ s ++
        "\x27. Format should be x.y.z with \x7bx,y,z\x7d being digits.".data := by
  constructor
  · apply make_of_regex_none
    cases hr : regexMatchVersion false s with
    | none => rfl
    | some t =>
      exact absurd (regexMatchVersion_isSome_iff.mp (by simp [hr])) h
  · show "Invalid version \x27".data ++ s ++ "\x27. Format should be x.y.z".data ++
        " with \x7bx,y,z\x7d being digits.".data = _
    simp only [List.append_assoc]
    exact congrArg _ (congrArg _ (by decide))

/-- C4 witness: the four spec examples are all rejected with the stated
message. -/
theorem construction_rejects_invalid_witness :
    (Version.make "1.2".data none =
        .error (.valueError (invalidVersionMsg "1.2".data false)) ∧
      invalidVersionMsg "1.2".data false =
        "Invalid version \x27".data ++ "1.2".data ++
          "\x27. Format should be x.y.z with \x7bx,y,z\x7d being digits.".data) ∧
    (Version.make "1.2.3.4".data none =
        .error (.valueError (invalidVersionMsg "1.2.3.4".data false))) ∧
    (Version.make "a.b.c".data none =
        .error (.valueError (invalidVersionMsg "a.b.c".data false))) ∧
    (Version.make "1.2.*".data none =
        .error (.valueError (invalidVersionMsg "1.2.*".data false))) :=
  ⟨construction_rejects_invalid "1.2".data none
      (fun hacc => absurd (regexMatchVersion_isSome_iff.mpr hacc) (by decide)),
    (construction_rejects_invalid "1.2.3.4".data none
      (fun hacc => absurd (regexMatchVersion_isSome_iff.mpr hacc) (by decide))).1,
    (construction_rejects_invalid "a.b.c".data none
      (fun hacc => absurd (regexMatchVersion_isSome_iff.mpr hacc) (by decide))).1,
    (construction_rejects_invalid "1.2.*".data none
      (fun hacc => absurd (regexMatchVersion_isSome_iff.mpr hacc) (by decide))).1⟩

end TfdsVersion

namespace TfdsVersion

/-- C5: a plain-string operand is first parsed into a transient Version
(non-wildcard grammar) and the comparison is performed on the parsed value;
a parse failure makes every comparison fail with the parser's
`InvalidVersionFormat` error. -/
theorem string_operand_coercion (v : Version) (s : List Char) :
    (∀ w, Version.make s none = .ok w →
      (v.eq (.str s) = v.eq (.ver w) ∧ v.ne (.str s) = v.ne (.ver w) ∧
       v.lt (.str s) = v.lt (.ver w) ∧ v.le (.str s) = v.le (.ver w) ∧
       v.gt (.str s) = v.gt (.ver w) ∧ v.ge (.str s) = v.ge (.ver w))) ∧
    (∀ e, Version.make s none = .error e →
      (e = .valueError (invalidVersionMsg s false) ∧
       v.eq (.str s) = .error e ∧ v.ne (.str s) = .error e ∧
       v.lt (.str s) = .error e ∧ v.le (.str s) = .error e ∧
       v.gt (.str s) = .error e ∧ v.ge (.str s) = .error e)) := by
  constructor
  · intro w hw
    have hval : Version._validate_operand (.str s) = .ok w := hw
    have heq : v.eq (.str s) = v.eq (.ver w) := by
      unfold Version.eq
      rw [hval]
      rfl
    have hlt : v.lt (.str s) = v.lt (.ver w) := by
      unfold Version.lt
      rw [hval]
      rfl
    have hne : v.ne (.str s) = v.ne (.ver w) := by
      unfold Version.ne
      rw [heq]
    refine ⟨heq, hne, hlt, ?_, ?_, ?_⟩
    · unfold Version.le
      rw [hlt, heq]
    · unfold Version.gt
      rw [hlt, hne]
    · unfold Version.ge
      rw [hlt]
  · intro e he
    have hval : Version._validate_operand (.str s) = .error e := he
    have heq : v.eq (.str s) = .error e := by
      unfold Version.eq
      rw [hval]
      rfl
    have hlt : v.lt (.str s) = .error e := by
      unfold Version.lt
      rw [hval]
      rfl
    have hne : v.ne (.str s) = .error e := by
      unfold Version.ne
      rw [heq]
      rfl
    refine ⟨make_error_shape he, heq, hne, hlt, ?_, ?_, ?_⟩
    · unfold Version.le
      rw [hlt]
      rfl
    · unfold Version.gt
      rw [hlt]
      rfl
    · unfold Version.ge
      rw [hlt]
      rfl

/-- C5 witness: Version("1.0.0") == "1.0.0" is True,
Version("1.0.1") > "1.0.0" is True, and comparing against an unparsable
string fails with the format error. -/
theorem string_operand_coercion_witness :
    Version.eq ⟨VComp.num 1, VComp.num 0, VComp.num 0, DEFAULT_FEATURES⟩
      (.str "1.0.0".data) = .ok true ∧
    Version.gt ⟨VComp.num 1, VComp.num 0, VComp.num 1, DEFAULT_FEATURES⟩
      (.str "1.0.0".data) = .ok true ∧
    Version.lt ⟨VComp.num 1, VComp.num 0, VComp.num 0, DEFAULT_FEATURES⟩
      (.str "abc".data) =
      .error (.valueError (invalidVersionMsg "abc".data false)) := by
  refine ⟨?_, ?_, ?_⟩
  · exact ((string_operand_coercion
      ⟨VComp.num 1, VComp.num 0, VComp.num 0, DEFAULT_FEATURES⟩ "1.0.0".data).1
      ⟨VComp.num 1, VComp.num 0, VComp.num 0, DEFAULT_FEATURES⟩
      (by decide)).1.trans (by decide)
  · exact ((string_operand_coercion
      ⟨VComp.num 1, VComp.num 0, VComp.num 1, DEFAULT_FEATURES⟩ "1.0.0".data).1
      ⟨VComp.num 1, VComp.num 0, VComp.num 0, DEFAULT_FEATURES⟩
      (by decide)).2.2.2.2.1.trans (by decide)
  · exact (((string_operand_coercion
      ⟨VComp.num 1, VComp.num 0, VComp.num 0, DEFAULT_FEATURES⟩ "abc".data).2
      (.valueError (invalidVersionMsg "abc".data false)) (by decide))).2.2.2.1

/-- C6: comparing against an operand that is neither a Version nor a string
fails — for every comparison operator, including `==` — with the
`AssertionError` naming the received value and type; it never silently
returns false and never raises a different error. -/
theorem type_mismatch_comparisons (v : Version) (val_repr type_repr : List Char) :
    v.eq (.other val_repr type_repr) =
      .error (.assertionError (cannotCompareMsg val_repr type_repr)) ∧
    v.ne (.other val_repr type_repr) =
      .error (.assertionError (cannotCompareMsg val_repr type_repr)) ∧
    v.lt (.other val_repr type_repr) =
      .error (.assertionError (cannotCompareMsg val_repr type_repr)) ∧
    v.le (.other val_repr type_repr) =
      .error (.assertionError (cannotCompareMsg val_repr type_repr)) ∧
    v.gt (.other val_repr type_repr) =
      .error (.assertionError (cannotCompareMsg val_repr type_repr)) ∧
    v.ge (.other val_repr type_repr) =
      .error (.assertionError (cannotCompareMsg val_repr type_repr)) ∧
    cannotCompareMsg val_repr type_repr =
      val_repr ++ " (type ".data ++ type_repr ++
        ") cannot be compared to version.".data :=
  ⟨rfl, rfl, rfl, rfl, rfl, rfl, rfl⟩

end TfdsVersion

namespace TfdsVersion

/-- C7: `implements` returns the stored boolean when the feature has an
entry in the instance feature mapping, and fails with the `KeyError`
(missing feature) — not a default false — when it has none. -/
theorem implements_stored_or_keyerror (v : Version) (f : Feature) :
    (∀ b, v._features.lookup f = some b → v.implements f = .ok b) ∧
    (v._features.lookup f = none →
      ∃ r, v.implements f = .error (.keyError r)) := by
  unfold Version.implements
  constructor
  · intro b hb
    rw [hb]
  · intro hn
    rw [hn]
    exact ⟨_, rfl⟩

/-- C7 witness: a constructed Version stores DUMMY ↦ false, so
`implements(DUMMY)` is false; on a feature map without an entry the lookup
fails with a `KeyError`. -/
theorem implements_stored_or_keyerror_witness :
    Version.implements ⟨VComp.num 1, VComp.num 0, VComp.num 0, DEFAULT_FEATURES⟩
      Feature.DUMMY = .ok false ∧
    ∃ r, Version.implements ⟨VComp.num 1, VComp.num 0, VComp.num 0, []⟩
      Feature.DUMMY = .error (.keyError r) :=
  ⟨(implements_stored_or_keyerror
      ⟨VComp.num 1, VComp.num 0, VComp.num 0, DEFAULT_FEATURES⟩ Feature.DUMMY).1
      false (by decide),
    (implements_stored_or_keyerror
      ⟨VComp.num 1, VComp.num 0, VComp.num 0, []⟩ Feature.DUMMY).2 (by decide)⟩

/-- C8: the feature map is seeded from the process-wide defaults; each entry
of the `features` argument overrides the default for that feature on the
instance (the last binding winning), features without an entry in the
argument keep their default, and with default {DUMMY: False},
Version("1.0.0") implements DUMMY as False while
Version("1.0.0", features={DUMMY: True}) implements it as True. -/
theorem features_seed_and_override (s : List Char)
    (fs : List (Feature × Bool)) (f : Feature) :
    (∀ v, Version.make s none = .ok v → v._features = DEFAULT_FEATURES) ∧
    (∀ v, Version.make s (some fs) = .ok v →
      (∀ b, fs.reverse.lookup f = some b → v._features.lookup f = some b) ∧
      (fs.reverse.lookup f = none →
        v._features.lookup f = DEFAULT_FEATURES.lookup f)) ∧
    (∀ v, Version.make "1.0.0".data none = .ok v →
      v.implements Feature.DUMMY = .ok false) ∧
    (∀ v, Version.make "1.0.0".data (some [(Feature.DUMMY, true)]) = .ok v →
      v.implements Feature.DUMMY = .ok true) := by
  refine ⟨?_, ?_, ?_, ?_⟩
  · intro v hv
    obtain ⟨a, b, c, -, rfl⟩ := make_ok_shape hv
    rfl
  · intro v hv
    obtain ⟨a, b, c, -, rfl⟩ := make_ok_shape hv
    show (∀ b, _ → (initFeatures (some fs)).lookup f = some b) ∧
      (_ → (initFeatures (some fs)).lookup f = DEFAULT_FEATURES.lookup f)
    cases hfs : fs.isEmpty with
    | true =>
      have hfs' : fs = [] := by simpa using hfs
      subst hfs'
      exact ⟨fun b hb => by simp at hb, fun _ => rfl⟩
    | false =>
      have hinit : initFeatures (some fs) = dictUpdate DEFAULT_FEATURES fs := by
        simp [initFeatures, hfs]
      rw [hinit]
      constructor
      · intro b hb
        rw [dictUpdate_lookup, hb]
        rfl
      · intro hn
        rw [dictUpdate_lookup, hn]
        rfl
  · intro v hv
    obtain ⟨a, b, c, -, rfl⟩ := make_ok_shape hv
    rfl
  · intro v hv
    obtain ⟨a, b, c, -, rfl⟩ := make_ok_shape hv
    rfl

/-- C8 witness: the default and the override at DUMMY, applied to
Version("1.0.0"). -/
theorem features_seed_and_override_witness :
    Version._features ⟨VComp.num 1, VComp.num 0, VComp.num 0,
      initFeatures none⟩ = DEFAULT_FEATURES ∧
    List.lookup Feature.DUMMY (Version._features ⟨VComp.num 1, VComp.num 0,
      VComp.num 0, initFeatures (some [(Feature.DUMMY, true)])⟩) = some true ∧
    Version.implements ⟨VComp.num 1, VComp.num 0, VComp.num 0,
      initFeatures none⟩ Feature.DUMMY = .ok false ∧
    Version.implements ⟨VComp.num 1, VComp.num 0, VComp.num 0,
      initFeatures (some [(Feature.DUMMY, true)])⟩ Feature.DUMMY = .ok true :=
  ⟨(features_seed_and_override "1.0.0".data [] Feature.DUMMY).1 _ (by decide),
    ((features_seed_and_override "1.0.0".data [(Feature.DUMMY, true)]
        Feature.DUMMY).2.1 _ (by decide)).1 true (by decide),
    (features_seed_and_override "1.0.0".data [] Feature.DUMMY).2.2.1 _ (by decide),
    (features_seed_and_override "1.0.0".data [(Feature.DUMMY, true)]
        Feature.DUMMY).2.2.2 _ (by decide)⟩

/-- C9: every successfully constructed Version stores three concrete
integers — the wildcard sentinel is never stored in major, minor or patch.
(Immutability afterwards is inherent to the embedding: every operation is a
pure function of the Version value and returns a result without producing a
modified Version.) -/
theorem constructed_components_resolved (s : List Char)
    (fso : Option (List (Feature × Bool))) (v : Version)
    (h : Version.make s fso = .ok v) :
    (∃ a, v.major = VComp.num a) ∧ (∃ b, v.minor = VComp.num b) ∧
    (∃ c, v.patch = VComp.num c) := by
  obtain ⟨a, b, c, -, rfl⟩ := make_ok_shape h
  exact ⟨⟨a, rfl⟩, ⟨b, rfl⟩, ⟨c, rfl⟩⟩

/-- C9 witness: at Version("1.2.3"). -/
theorem constructed_components_resolved_witness :
    (∃ a, Version.major ⟨VComp.num 1, VComp.num 2, VComp.num 3,
      DEFAULT_FEATURES⟩ = VComp.num a) ∧
    (∃ b, Version.minor ⟨VComp.num 1, VComp.num 2, VComp.num 3,
      DEFAULT_FEATURES⟩ = VComp.num b) ∧
    (∃ c, Version.patch ⟨VComp.num 1, VComp.num 2, VComp.num 3,
      DEFAULT_FEATURES⟩ = VComp.num c) :=
  constructed_components_resolved "1.2.3".data none _ (by decide)

end TfdsVersion

namespace TfdsVersion

/-- C10: the constructor accepts components with leading zeros (the grammar
`\d+` matches them) and normalizes by integer conversion: "01.2.3" is
accepted, renders back as "1.2.3" (≠ "01.2.3"), and compares equal to
Version("1.2.3") — so the string-level round-trip fails on some accepted
strings. -/
theorem leading_zeros_accepted_normalized :
    Version.make "01.2.3".data none =
      .ok ⟨VComp.num 1, VComp.num 2, VComp.num 3, DEFAULT_FEATURES⟩ ∧
    Version.str ⟨VComp.num 1, VComp.num 2, VComp.num 3, DEFAULT_FEATURES⟩ =
      "1.2.3".data ∧
    "1.2.3".data ≠ "01.2.3".data ∧
    Version.make "1.2.3".data none =
      .ok ⟨VComp.num 1, VComp.num 2, VComp.num 3, DEFAULT_FEATURES⟩ ∧
    Version.eq ⟨VComp.num 1, VComp.num 2, VComp.num 3, DEFAULT_FEATURES⟩
      (.ver ⟨VComp.num 1, VComp.num 2, VComp.num 3, DEFAULT_FEATURES⟩) =
      .ok true := by
  refine ⟨by decide, ?_, by decide, by decide, by decide⟩
  show VComp.str (VComp.num 1) ++ '.' :: VComp.str (VComp.num 2) ++
      '.' :: VComp.str (VComp.num 3) = _
  rw [@numStr_single_digit 1 (by norm_num) (by norm_num),
    @numStr_single_digit 2 (by norm_num) (by norm_num),
    @numStr_single_digit 3 (by norm_num) (by norm_num)]
  decide

end TfdsVersion

namespace TfdsVersion

/-- C2 witness: the round trip at (1, 2, 3), and the no-leading-zero form
of the rendering. -/
theorem roundtrip_str_witness :
    Version.make (VComp.str (VComp.num 1) ++ '.' :: VComp.str (VComp.num 2) ++
        '.' :: VComp.str (VComp.num 3)) none =
      .ok ⟨VComp.num 1, VComp.num 2, VComp.num 3, DEFAULT_FEATURES⟩ ∧
    Version.str ⟨VComp.num 1, VComp.num 2, VComp.num 3, DEFAULT_FEATURES⟩ =
      VComp.str (VComp.num 1) ++ '.' :: VComp.str (VComp.num 2) ++
        '.' :: VComp.str (VComp.num 3) ∧
    (∀ n : Nat, n ≠ 0 →
      ∀ c, (VComp.str (VComp.num n)).head? = some c → c ≠ '0') :=
  roundtrip_str 1 2 3

end TfdsVersion
